import Mathlib

/-!
Shallow embedding of the long-range ("batch") sync orchestrator of
`src/packages/lodestar/src/sync/range/range.ts` (class `RangeSync`), together
with the pieces of its collaborators that the verified properties need.

Conventions of the embedding:
* slots and epochs (TS `number`, nonnegative here) are `Nat`;
* a peer id is an opaque `Nat`;
* a 32-byte root (`Uint8Array`) is a `List (Fin 256)`;
* the JS `Map<SyncChainId, SyncChain>` is an insertion-ordered association
  list `List (SyncChainId × SyncChain)`; `Map.get` finds the first entry,
  `Map.set` overwrites the first entry with the key or appends a new one,
  `Map.delete` removes entries with the key (mirroring JS `Map` semantics);
* a JS template-literal string is a `List Char`.

Collaborator code that lives outside `src/` (the `SyncChain` pool operations,
`getRangeSyncType`, `updateChains`, `shouldRemoveChain`,
`assertSequentialBlocksInRange`) is modelled from the specification; each such
definition carries a doc comment starting with `Modelled from the spec:`.
-/

/-- Peer identifier (TS `PeerId`), opaque to the orchestrator. -/
abbrev PeerId := Nat

/-- Beacon slot (TS `Slot`). -/
abbrev Slot := Nat

/-- Beacon epoch (TS `Epoch`). -/
abbrev Epoch := Nat

/-- One byte of a 32-byte root. -/
abbrev RootByte := Fin 256

/-- Block root (TS `Root`, a `Uint8Array`). -/
abbrev Root := List RootByte

/-- The classification of a peer / chain (TS `enum RangeSyncType {Finalized, Head}`,
a numeric enum whose members stringify to `"0"` and `"1"`). -/
inductive RangeSyncType where
  | Finalized
  | Head
deriving DecidableEq, Repr

/-- Target of a sync chain (TS `ChainTarget`): a slot together with a root. -/
structure ChainTarget where
  slot : Slot
  root : Root
deriving DecidableEq, Repr

/-- The fields of the wire `Status` message used by `RangeSync.addPeer`. -/
structure Status where
  finalizedEpoch : Epoch
  finalizedRoot : Root
  headSlot : Slot
  headRoot : Root
deriving DecidableEq, Repr

/-- The part of `IBeaconConfig` the range sync uses. -/
structure BeaconConfig where
  slotsPerEpoch : Nat
deriving DecidableEq, Repr

/-- Modelled from the beacon-chain helper package: the first slot of an epoch. -/
def computeStartSlotAtEpoch (config : BeaconConfig) (epoch : Epoch) : Slot :=
  epoch * config.slotsPerEpoch

/-- Modelled from the beacon-chain helper package: the epoch containing a slot. -/
def computeEpochAtSlot (config : BeaconConfig) (slot : Slot) : Epoch :=
  slot / config.slotsPerEpoch

/-- Modelled from the spec: `classifyPeer(localStatus, peerStatus)` — a peer
requires a Finalized sync when its claimed finalized height exceeds the local
finalized height (tolerance taken as zero); otherwise it requires a Head sync
(callers hand `RangeSync.addPeer` only peers already needing a range sync).
The source function `getRangeSyncType` lives in `../utils/remoteSyncType`,
which is not part of the provided sources. -/
def getRangeSyncType (localStatus peerStatus : Status) : RangeSyncType :=
  if localStatus.finalizedEpoch < peerStatus.finalizedEpoch then
    RangeSyncType.Finalized
  else
    RangeSyncType.Head

/-- Chain identifier: in the source a string; here its character list. -/
abbrev SyncChainId := List Char

/-- Decimal digit to its character, for embedding JS number stringification. -/
def digitToChar : Nat → Char
  | 0 => '0' | 1 => '1' | 2 => '2' | 3 => '3' | 4 => '4'
  | 5 => '5' | 6 => '6' | 7 => '7' | 8 => '8' | 9 => '9'
  | _ => '?'

/-- Decimal representation of a natural number, as produced by a JS template
literal `${n}` for a nonnegative integer. -/
def decRepChars (n : Nat) : List Char :=
  if n = 0 then ['0'] else ((Nat.digits 10 n).map digitToChar).reverse

/-- Hexadecimal digit to its character (lowercase, as `toHexString` emits). -/
def hexDigitChar : Nat → Char
  | 0 => '0' | 1 => '1' | 2 => '2' | 3 => '3' | 4 => '4'
  | 5 => '5' | 6 => '6' | 7 => '7' | 8 => '8' | 9 => '9'
  | 10 => 'a' | 11 => 'b' | 12 => 'c' | 13 => 'd' | 14 => 'e' | 15 => 'f'
  | _ => '?'

/-- Two hex characters of one byte, high nibble first. -/
def bytePairChars (b : RootByte) : List Char :=
  [hexDigitChar (b.val / 16), hexDigitChar (b.val % 16)]

/-- Hex body of `toHexString` (from `@chainsafe/ssz`): each byte as two hex
characters, in order. -/
def bytesToHexChars (bytes : Root) : List Char :=
  bytes.flatMap bytePairChars

/-- Embedding of `toHexString(root)`: `0x`-prefixed lowercase hex. -/
def toHexStringChars (root : Root) : List Char :=
  '0' :: 'x' :: bytesToHexChars root

/-- Stringification of the numeric enum member inside the template literal. -/
def syncTypeChars : RangeSyncType → List Char
  | RangeSyncType.Finalized => ['0']
  | RangeSyncType.Head => ['1']

/-- Embedding of `getSyncChainId(syncType, target)` from `range.ts`:
the template literal `${syncType}-${target.slot}-${toHexString(target.root)}`. -/
def getSyncChainId (syncType : RangeSyncType) (target : ChainTarget) : SyncChainId :=
  syncTypeChars syncType ++ '-' :: decRepChars target.slot ++ '-' :: toHexStringChars target.root

/-- State of one sync chain, restricted to the fields `RangeSync` reads
(`./chain.ts` is not part of the provided sources; the pool and flag semantics
below are modelled from the spec, §4.2). -/
structure SyncChain where
  startEpoch : Epoch
  target : ChainTarget
  syncType : RangeSyncType
  peers : List PeerId
  isSyncing : Bool
deriving DecidableEq, Repr

/-- Modelled from the spec: a freshly constructed `SyncChain` has an empty
peer pool and is not yet syncing. -/
def SyncChain.new (startEpoch : Epoch) (target : ChainTarget) (syncType : RangeSyncType) : SyncChain :=
  { startEpoch := startEpoch, target := target, syncType := syncType,
    peers := [], isSyncing := false }

/-- Modelled from the spec: `SyncChain.addPeer(peerId)` inserts the peer into
the pool (a set: inserting an already present peer changes nothing). -/
def SyncChain.addPeer (chain : SyncChain) (peer : PeerId) : SyncChain :=
  if peer ∈ chain.peers then chain else { chain with peers := chain.peers ++ [peer] }

/-- Modelled from the spec: `SyncChain.removePeer(peerId)` removes the peer
from the pool. -/
def SyncChain.removePeer (chain : SyncChain) (peer : PeerId) : SyncChain :=
  { chain with peers := chain.peers.filter (fun q => q ≠ peer) }

/-- Modelled from the spec: `SyncChain.stopSyncing()` pauses the chain. -/
def SyncChain.stopSyncing (chain : SyncChain) : SyncChain :=
  { chain with isSyncing := false }

/-- Modelled from the spec: `SyncChain.startSyncing` begins/resumes the loop. -/
def SyncChain.startSyncing (chain : SyncChain) : SyncChain :=
  { chain with isSyncing := true }

/-- JS `Map.get`: the value at the key, searching in insertion order. -/
def mapGet (m : List (SyncChainId × SyncChain)) (k : SyncChainId) : Option SyncChain :=
  match m.find? (fun e => e.1 = k) with
  | some e => some e.2
  | none => none

/-- JS `Map.set`: overwrite the first entry carrying the key, else append. -/
def mapSet (m : List (SyncChainId × SyncChain)) (k : SyncChainId) (v : SyncChain) :
    List (SyncChainId × SyncChain) :=
  match m with
  | [] => [(k, v)]
  | e :: rest => if e.1 = k then (k, v) :: rest else e :: mapSet rest k v

/-- State owned by the `RangeSync` orchestrator class: its chains map. -/
structure RangeSync where
  chains : List (SyncChainId × SyncChain)
deriving DecidableEq, Repr

/-- Embedding of `RangeSync.removePeer(peerId)`: every chain's pool drops the
peer. -/
def RangeSync.removePeer (state : RangeSync) (peer : PeerId) : RangeSync :=
  { state with chains := state.chains.map (fun e => (e.1, e.2.removePeer peer)) }

/-- Embedding of `RangeSync.addPeerOrCreateChain(startEpoch, target, peer, syncType)`:
look the derived id up; create the chain when absent; add the peer to it. -/
def RangeSync.addPeerOrCreateChain (state : RangeSync) (startEpoch : Epoch)
    (target : ChainTarget) (peer : PeerId) (syncType : RangeSyncType) : RangeSync :=
  let id := getSyncChainId syncType target
  match mapGet state.chains id with
  | some syncingChain =>
      { state with chains := mapSet state.chains id (syncingChain.addPeer peer) }
  | none =>
      let syncingChain := SyncChain.new startEpoch target syncType
      { state with chains := mapSet state.chains id (syncingChain.addPeer peer) }

/-- Lexicographic comparison of chain ids, used only to break ties
deterministically in the modelled chain-selection policy. -/
def idLt : List Char → List Char → Bool
  | [], [] => false
  | [], _ :: _ => true
  | _ :: _, [] => false
  | a :: as, b :: bs => if a = b then idLt as bs else decide (a < b)

/-- Modelled from the spec: `selectActiveChains(chains) -> {toStart, toStop}`
(the source `updateChains` from `./utils/updateChains` is not in the provided
sources) — among Finalized-type chains only the one with the largest peer pool
may be actively downloading (ties broken by chain id); all Head-type chains may
run concurrently. Returns the ids to stop and the ids to start, in that order. -/
def updateChains (chains : List (SyncChainId × SyncChain)) :
    List SyncChainId × List SyncChainId :=
  let finalizedEntries := chains.filter (fun e => e.2.syncType = RangeSyncType.Finalized)
  let headIds := (chains.filter (fun e => e.2.syncType = RangeSyncType.Head)).map (fun e => e.1)
  match finalizedEntries with
  | [] => ([], headIds)
  | f :: fs =>
      let best := fs.foldl (fun b c =>
        if b.2.peers.length < c.2.peers.length ∨
            (b.2.peers.length = c.2.peers.length ∧ idLt c.1 b.1 = true) then c else b) f
      ((finalizedEntries.filter (fun e => e.1 ≠ best.1)).map (fun e => e.1),
        best.1 :: headIds)

/-- Observable orchestrator actions of one `update` pass, in issue order. -/
inductive SyncEvent where
  | removed (id : SyncChainId)
  | stopped (id : SyncChainId)
  | started (id : SyncChainId)
deriving DecidableEq, Repr

/-- The `stopSyncing()` loop of `update`: pause every chain whose id was
selected to stop. -/
def applyStops (toStop : List SyncChainId) (l : List (SyncChainId × SyncChain)) :
    List (SyncChainId × SyncChain) :=
  l.map (fun e => if e.1 ∈ toStop then (e.1, e.2.stopSyncing) else e)

/-- The `runChain`-driving loop of `update`: resume every chain whose id was
selected to start. -/
def applyStarts (toStart : List SyncChainId) (l : List (SyncChainId × SyncChain)) :
    List (SyncChainId × SyncChain) :=
  l.map (fun e => if e.1 ∈ toStart then (e.1, e.2.startSyncing) else e)

/-- Embedding of `RangeSync.update(localFinalizedEpoch)` (range.ts 230-258).
The removal predicate is a parameter standing for `shouldRemoveChain` (from
`./utils/shouldRemoveChain`, not in the provided sources), applied — as in the
source — to each chain and the local finalized slot. The pass first evicts
every chain matching the predicate, then computes `{toStop, toStart}` over the
surviving chains and stops/starts them. Returns the new state and the event
trace in execution order. -/
def RangeSync.update (config : BeaconConfig) (shouldRemoveChain : SyncChain → Slot → Bool)
    (state : RangeSync) (localFinalizedEpoch : Epoch) : RangeSync × List SyncEvent :=
  let localFinalizedSlot := computeStartSlotAtEpoch config localFinalizedEpoch
  let removedIds :=
    (state.chains.filter (fun e => shouldRemoveChain e.2 localFinalizedSlot = true)).map (fun e => e.1)
  let remaining := state.chains.filter (fun e => ¬ shouldRemoveChain e.2 localFinalizedSlot = true)
  let selected := updateChains remaining
  (⟨applyStarts selected.2 (applyStops selected.1 remaining)⟩,
    removedIds.map SyncEvent.removed ++ selected.1.map SyncEvent.stopped
      ++ selected.2.map SyncEvent.started)

/-- Embedding of the `switch (rangeSyncType)` block of `RangeSync.addPeer`
(range.ts 128-151): the start epoch and chain target derived for a peer from
its classification. -/
def decideStartAndTarget (config : BeaconConfig) (rangeSyncType : RangeSyncType)
    (localStatus peerStatus : Status) : Epoch × ChainTarget :=
  match rangeSyncType with
  | RangeSyncType.Finalized =>
      (localStatus.finalizedEpoch,
        { slot := computeStartSlotAtEpoch config peerStatus.finalizedEpoch,
          root := peerStatus.finalizedRoot })
  | RangeSyncType.Head =>
      (min (computeEpochAtSlot config localStatus.headSlot) peerStatus.finalizedEpoch,
        { slot := peerStatus.headSlot, root := peerStatus.headRoot })

/-- Embedding of `RangeSync.addPeer(peerId, localStatus, peerStatus)`
(range.ts 116-155): classify, drop the peer from every chain, derive the start
epoch and target, attach the peer via `addPeerOrCreateChain` — the source at
line 153 passes the constant `RangeSyncType.Finalized`, not the computed
classification, and the embedding mirrors that — then run an `update` pass. -/
def RangeSync.addPeer (config : BeaconConfig) (shouldRemoveChain : SyncChain → Slot → Bool)
    (state : RangeSync) (peer : PeerId) (localStatus peerStatus : Status) :
    RangeSync × List SyncEvent :=
  let rangeSyncType := getRangeSyncType localStatus peerStatus
  let state1 := RangeSync.removePeer state peer
  let st := decideStartAndTarget config rangeSyncType localStatus peerStatus
  let state2 := RangeSync.addPeerOrCreateChain state1 st.1 st.2 peer RangeSyncType.Finalized
  RangeSync.update config shouldRemoveChain state2 localStatus.finalizedEpoch

/-- The derived summary type (source union `RangeSyncState` over
`RangeSyncStatus`). -/
inductive RangeSyncState where
  | Finalized (target : ChainTarget)
  | Head (targets : List ChainTarget)
  | Idle
deriving DecidableEq, Repr

/-- Loop body of `RangeSync.syncState` (range.ts 167-184): walk the chains in
map order, return the first actively syncing Finalized chain's target,
collecting syncing Head chains' targets along the way. -/
def syncStateGo : List (SyncChainId × SyncChain) → List ChainTarget → RangeSyncState
  | [], syncingHeadTargets =>
      if syncingHeadTargets.isEmpty then RangeSyncState.Idle
      else RangeSyncState.Head syncingHeadTargets
  | e :: rest, syncingHeadTargets =>
      if e.2.isSyncing then
        if e.2.syncType = RangeSyncType.Finalized then RangeSyncState.Finalized e.2.target
        else syncStateGo rest (syncingHeadTargets ++ [e.2.target])
      else syncStateGo rest syncingHeadTargets

/-- Embedding of `RangeSync.syncState()`. -/
def RangeSync.syncState (state : RangeSync) : RangeSyncState :=
  syncStateGo state.chains []

/-- Errors a `SyncChain.startSyncing` run can raise: the distinguished
cancellation error (`ErrorAborted`) or anything else (carried as a code). -/
inductive SyncError where
  | aborted
  | other (code : Nat)
deriving DecidableEq, Repr

/-- Observable effects of one `RangeSync.runChain` invocation. -/
structure RunChainEffects where
  propagated : Option SyncError
  loggedVerbose : Bool
  loggedError : Bool
  polledStatus : Bool
  updateTriggeredWith : Option Epoch
deriving DecidableEq, Repr

/-- Embedding of `RangeSync.runChain` (range.ts 260-276): `outcome` is how
`syncChain.startSyncing` terminated; `localStatusAfter` is what
`this.chain.getStatus()` resolves to when polled afterwards. -/
def RangeSync.runChain (outcome : Except SyncError Unit) (localStatusAfter : Status) :
    RunChainEffects :=
  match outcome with
  | Except.ok _ =>
      { propagated := none, loggedVerbose := true, loggedError := false,
        polledStatus := true, updateTriggeredWith := some localStatusAfter.finalizedEpoch }
  | Except.error SyncError.aborted =>
      { propagated := none, loggedVerbose := false, loggedError := false,
        polledStatus := false, updateTriggeredWith := none }
  | Except.error (SyncError.other _) =>
      { propagated := none, loggedVerbose := false, loggedError := true,
        polledStatus := true, updateTriggeredWith := some localStatusAfter.finalizedEpoch }

/-- Embedding of the abort listener registered in the `RangeSync` constructor
(range.ts 103-108): the chains on which it invokes `remove()`, in map order. -/
def RangeSync.onAbortRemoveCalls (state : RangeSync) : List SyncChain :=
  state.chains.map (fun e => e.2)

/-- Request shape of the download collaborator (spec: `{startHeight, count}`). -/
structure BeaconBlocksByRangeRequest where
  startSlot : Slot
  count : Nat
deriving DecidableEq, Repr

/-- A fetched block, restricted to the field the sequence check reads. -/
structure SignedBeaconBlock where
  slot : Slot
deriving DecidableEq, Repr

/-- Modelled from the spec: `assertSequentialBlocksInRange(blocks, request)`
(from `../utils`, not in the provided sources) — the response must be a
contiguous, strictly increasing sequence of heights exactly matching the
requested range, else it throws and the response is treated as invalid. -/
def assertSequentialBlocksInRange (blocks : List SignedBeaconBlock)
    (request : BeaconBlocksByRangeRequest) : Except SyncError Unit :=
  if blocks.map SignedBeaconBlock.slot
      = (List.range request.count).map (fun i => request.startSlot + i)
  then Except.ok () else Except.error (SyncError.other 1)

/-- Embedding of `RangeSync.downloadBeaconBlocksByRange` (range.ts 197-201):
`fetched` is how the network call `reqResp.beaconBlocksByRange` terminated;
its result is checked by `assertSequentialBlocksInRange` before being
returned. -/
def RangeSync.downloadBeaconBlocksByRange
    (fetched : Except SyncError (List SignedBeaconBlock))
    (request : BeaconBlocksByRangeRequest) : Except SyncError (List SignedBeaconBlock) :=
  match fetched with
  | Except.error e => Except.error e
  | Except.ok blocks =>
      match assertSequentialBlocksInRange blocks request with
      | Except.ok _ => Except.ok blocks
      | Except.error e => Except.error e

/-- The call `RangeSync.processChainSegment` issues to
`chain.processChainSegment`. -/
structure ProcessSegmentCall where
  blocks : List SignedBeaconBlock
  trusted : Bool
deriving DecidableEq, Repr

/-- Embedding of `RangeSync.processChainSegment` (range.ts 189-192): forwards
the blocks with the constant `trusted = true`. -/
def RangeSync.processChainSegment (blocks : List SignedBeaconBlock) : ProcessSegmentCall :=
  { blocks := blocks, trusted := true }

/-- Decidable equality of outcomes, for concrete witnesses. -/
instance {ε α : Type} [DecidableEq ε] [DecidableEq α] : DecidableEq (Except ε α) := fun a b =>
  match a, b with
  | Except.error e₁, Except.error e₂ =>
      if h : e₁ = e₂ then Decidable.isTrue (congrArg Except.error h)
      else Decidable.isFalse (fun hh => h (by cases hh; rfl))
  | Except.ok a₁, Except.ok a₂ =>
      if h : a₁ = a₂ then Decidable.isTrue (congrArg Except.ok h)
      else Decidable.isFalse (fun hh => h (by cases hh; rfl))
  | Except.error _, Except.ok _ => Decidable.isFalse (fun hh => Except.noConfusion hh)
  | Except.ok _, Except.error _ => Decidable.isFalse (fun hh => Except.noConfusion hh)

/-- The peer-facing events the orchestrator receives (spec §6 inbound events),
each handled by the corresponding `RangeSync` method. -/
inductive PeerOp where
  | add (peer : PeerId) (localStatus peerStatus : Status)
  | remove (peer : PeerId)
deriving DecidableEq, Repr

/-- One inbound event applied to the orchestrator state. -/
def applyOp (config : BeaconConfig) (shouldRemoveChain : SyncChain → Slot → Bool)
    (state : RangeSync) : PeerOp → RangeSync
  | PeerOp.add peer localStatus peerStatus =>
      (RangeSync.addPeer config shouldRemoveChain state peer localStatus peerStatus).1
  | PeerOp.remove peer => RangeSync.removePeer state peer

/-- A sequence of inbound events applied to the orchestrator state in order. -/
def runOps (config : BeaconConfig) (shouldRemoveChain : SyncChain → Slot → Bool) :
    List PeerOp → RangeSync → RangeSync
  | [], state => state
  | op :: rest, state =>
      runOps config shouldRemoveChain rest (applyOp config shouldRemoveChain state op)

/-- Number of chains whose pool currently holds the peer. -/
def chainsContaining (state : RangeSync) (peer : PeerId) : Nat :=
  state.chains.countP (fun e => decide (peer ∈ e.2.peers))

/-- Targets of the actively syncing Head-type chains, in map order. -/
def syncingHeadTargetsOf (state : RangeSync) : List ChainTarget :=
  (state.chains.filter
    (fun e => decide (e.2.isSyncing = true ∧ e.2.syncType = RangeSyncType.Head))).map
    (fun e => e.2.target)

/-- Sample configuration for concrete witnesses. -/
def sampleConfig : BeaconConfig := { slotsPerEpoch := 32 }

/-- Sample chain target for concrete witnesses. -/
def sampleTarget : ChainTarget := { slot := 0, root := [] }

/-- Sample chain for concrete witnesses. -/
def sampleChain : SyncChain := SyncChain.new 0 sampleTarget RangeSyncType.Head

/-- Sample chain id for concrete witnesses. -/
def sampleId : SyncChainId := getSyncChainId RangeSyncType.Head sampleTarget

/-- Sample status for concrete witnesses. -/
def sampleStatus : Status :=
  { finalizedEpoch := 3, finalizedRoot := [], headSlot := 0, headRoot := [] }

/-- Local status of a peer-addition on which the classification is Head:
the peer claims the same finalized epoch as the local node. -/
def localStatusHeadCase : Status :=
  { finalizedEpoch := 0, finalizedRoot := [], headSlot := 0, headRoot := [] }

/-- Peer status of a peer-addition on which the classification is Head. -/
def peerStatusHeadCase : Status :=
  { finalizedEpoch := 0, finalizedRoot := [], headSlot := 0, headRoot := [] }

/-- Local status classified Finalized against `peerStatusFinalizedCase`. -/
def localStatusFinalizedCase : Status :=
  { finalizedEpoch := 1, finalizedRoot := [], headSlot := 0, headRoot := [] }

/-- Peer status whose claimed finalized epoch is ahead of
`localStatusFinalizedCase`. -/
def peerStatusFinalizedCase : Status :=
  { finalizedEpoch := 2, finalizedRoot := [], headSlot := 0, headRoot := [] }

/-- C10: every block segment the orchestrator hands to the apply-segment
collaborator carries the constant `trusted = true`; signature verification is
never requested, whatever the blocks are. -/
theorem processChainSegment_always_trusted :
    ∀ blocks : List SignedBeaconBlock, (RangeSync.processChainSegment blocks).trusted = true :=
  fun _ => rfl

/-- C7: a terminal failure of `startSyncing` other than cancellation is caught
inside `runChain` and never propagates; after success or such a failure the
orchestrator polls the local status and triggers a fresh `update` pass with the
newly obtained local finalized epoch. -/
theorem runChain_catches_failure_and_retriggers_update :
    ∀ (outcome : Except SyncError Unit) (localStatusAfter : Status),
      (RangeSync.runChain outcome localStatusAfter).propagated = none ∧
      (outcome ≠ Except.error SyncError.aborted →
        (RangeSync.runChain outcome localStatusAfter).polledStatus = true ∧
        (RangeSync.runChain outcome localStatusAfter).updateTriggeredWith
          = some localStatusAfter.finalizedEpoch) := by
  intro outcome localStatusAfter
  rcases outcome with e | u
  · rcases e with _ | code
    · exact ⟨rfl, fun h => absurd rfl h⟩
    · exact ⟨rfl, fun _ => ⟨rfl, rfl⟩⟩
  · exact ⟨rfl, fun _ => ⟨rfl, rfl⟩⟩

/-- Witness for C7 at a concrete non-cancellation failure. -/
theorem runChain_catches_failure_and_retriggers_update_witness :
    Except.error (SyncError.other 7) ≠ (Except.error SyncError.aborted : Except SyncError Unit) ∧
    (RangeSync.runChain (Except.error (SyncError.other 7)) sampleStatus).polledStatus = true ∧
    (RangeSync.runChain (Except.error (SyncError.other 7)) sampleStatus).updateTriggeredWith
      = some sampleStatus.finalizedEpoch :=
  ⟨by decide,
    (runChain_catches_failure_and_retriggers_update
      (Except.error (SyncError.other 7)) sampleStatus).2 (by decide)⟩

/-- C8: on process-wide cancellation the registered abort listener invokes
`remove()` on every chain currently in the chains map; and a running chain
whose `startSyncing` terminates with the cancellation error makes `runChain`
return at once — no error log, no status poll, no further `update` pass. -/
theorem abort_removes_every_chain_and_aborted_run_is_silent :
    ∀ (state : RangeSync) (id : SyncChainId) (c : SyncChain) (localStatusAfter : Status),
      ((id, c) ∈ state.chains → c ∈ RangeSync.onAbortRemoveCalls state) ∧
      RangeSync.runChain (Except.error SyncError.aborted) localStatusAfter
        = { propagated := none, loggedVerbose := false, loggedError := false,
            polledStatus := false, updateTriggeredWith := none } := by
  intro state id c localStatusAfter
  exact ⟨fun h => List.mem_map.mpr ⟨(id, c), h, rfl⟩, rfl⟩

/-- Witness for C8 at a concrete one-chain state. -/
theorem abort_removes_every_chain_and_aborted_run_is_silent_witness :
    ((sampleId, sampleChain) ∈ (RangeSync.mk [(sampleId, sampleChain)]).chains) ∧
    sampleChain ∈ RangeSync.onAbortRemoveCalls (RangeSync.mk [(sampleId, sampleChain)]) :=
  ⟨by decide,
    (abort_removes_every_chain_and_aborted_run_is_silent
      (RangeSync.mk [(sampleId, sampleChain)]) sampleId sampleChain sampleStatus).1 (by decide)⟩

/-- C9: the download collaborator checks every fetched block sequence against
the request before returning it — any blocks it returns satisfy the
contiguous strictly-increasing sequence check for the requested range, they
are exactly what the network produced, and otherwise the call surfaces an
error and returns no blocks. -/
theorem downloadBeaconBlocksByRange_validates_sequence :
    ∀ (fetched : Except SyncError (List SignedBeaconBlock))
      (request : BeaconBlocksByRangeRequest) (blocks : List SignedBeaconBlock),
      RangeSync.downloadBeaconBlocksByRange fetched request = Except.ok blocks →
        blocks.map SignedBeaconBlock.slot
          = (List.range request.count).map (fun i => request.startSlot + i) ∧
        fetched = Except.ok blocks := by
  intro fetched request blocks h
  cases fetched with
  | error e => simp [RangeSync.downloadBeaconBlocksByRange] at h
  | ok bs =>
      unfold RangeSync.downloadBeaconBlocksByRange assertSequentialBlocksInRange at h
      by_cases hc : bs.map SignedBeaconBlock.slot
          = (List.range request.count).map (fun i => request.startSlot + i)
      · simp only [hc, if_pos] at h
        cases h
        exact ⟨hc, rfl⟩
      · simp only [hc, if_neg, not_false_eq_true] at h
        exact absurd h (by simp)

/-- Witness for C9 at a concrete valid two-block response. -/
theorem downloadBeaconBlocksByRange_validates_sequence_witness :
    RangeSync.downloadBeaconBlocksByRange
        (Except.ok [SignedBeaconBlock.mk 5, SignedBeaconBlock.mk 6])
        (BeaconBlocksByRangeRequest.mk 5 2)
      = Except.ok [SignedBeaconBlock.mk 5, SignedBeaconBlock.mk 6] ∧
    ([SignedBeaconBlock.mk 5, SignedBeaconBlock.mk 6]).map SignedBeaconBlock.slot
      = (List.range 2).map (fun i => 5 + i) :=
  ⟨by decide,
    (downloadBeaconBlocksByRange_validates_sequence
      (Except.ok [SignedBeaconBlock.mk 5, SignedBeaconBlock.mk 6])
      (BeaconBlocksByRangeRequest.mk 5 2)
      [SignedBeaconBlock.mk 5, SignedBeaconBlock.mk 6] (by decide)).1⟩

/-- Loop lemma: when no chain in the remainder of the walk is an actively
syncing Finalized chain, `syncStateGo` returns Head of the accumulated and
collected targets, or Idle when there are none. -/
theorem syncStateGo_no_syncing_finalized :
    ∀ (l : List (SyncChainId × SyncChain)) (acc : List ChainTarget),
      (∀ e ∈ l, e.2.isSyncing = true → e.2.syncType ≠ RangeSyncType.Finalized) →
      syncStateGo l acc =
        (if (acc ++ syncingHeadTargetsOf (RangeSync.mk l)).isEmpty then RangeSyncState.Idle
         else RangeSyncState.Head (acc ++ syncingHeadTargetsOf (RangeSync.mk l))) := by
  intro l
  induction l with
  | nil =>
      intro acc h
      simp [syncStateGo, syncingHeadTargetsOf]
  | cons e rest ih =>
      intro acc h
      by_cases hs : e.2.isSyncing = true
      · have ht : e.2.syncType ≠ RangeSyncType.Finalized := h e (List.mem_cons_self e rest) hs
        have hhead : e.2.syncType = RangeSyncType.Head := by
          cases hy : e.2.syncType
          · exact absurd hy ht
          · rfl
        have hrec := ih (acc ++ [e.2.target]) (fun e' he' => h e' (List.mem_cons_of_mem e he'))
        simp only [syncStateGo, hs, if_pos, ht, if_neg, not_false_eq_true, ite_true, ite_false]
        rw [hrec]
        have hfil : syncingHeadTargetsOf (RangeSync.mk (e :: rest))
            = e.2.target :: syncingHeadTargetsOf (RangeSync.mk rest) := by
          simp [syncingHeadTargetsOf, List.filter_cons, hs, hhead]
        rw [hfil, List.append_assoc, List.singleton_append]
      · have hs' : e.2.isSyncing = false := by
          cases hy : e.2.isSyncing
          · rfl
          · exact absurd hy hs
        have hrec := ih acc (fun e' he' => h e' (List.mem_cons_of_mem e he'))
        have hfil : syncingHeadTargetsOf (RangeSync.mk (e :: rest))
            = syncingHeadTargetsOf (RangeSync.mk rest) := by
          simp [syncingHeadTargetsOf, List.filter_cons, hs']
        simp only [syncStateGo, hs']
        rw [hrec, hfil]
        simp

/-- Loop lemma: when some chain in the remainder of the walk is an actively
syncing Finalized chain, `syncStateGo` returns Finalized with the target of
such a chain, whatever was accumulated. -/
theorem syncStateGo_syncing_finalized :
    ∀ (l : List (SyncChainId × SyncChain)) (acc : List ChainTarget),
      (∃ e ∈ l, e.2.isSyncing = true ∧ e.2.syncType = RangeSyncType.Finalized) →
      ∃ e ∈ l, e.2.isSyncing = true ∧ e.2.syncType = RangeSyncType.Finalized ∧
        syncStateGo l acc = RangeSyncState.Finalized e.2.target := by
  intro l
  induction l with
  | nil =>
      intro acc h
      rcases h with ⟨e, he, _⟩
      exact absurd he (List.not_mem_nil e)
  | cons e rest ih =>
      intro acc h
      by_cases hs : e.2.isSyncing = true
      · by_cases hf : e.2.syncType = RangeSyncType.Finalized
        · refine ⟨e, List.mem_cons_self e rest, hs, hf, ?_⟩
          simp [syncStateGo, hs, hf]
        · rcases h with ⟨e', he', hsy, hty⟩
          rcases List.mem_cons.mp he' with rfl | hmem
          · exact absurd hty hf
          · rcases ih (acc ++ [e.2.target]) ⟨e', hmem, hsy, hty⟩ with ⟨e'', hm, h1, h2, h3⟩
            refine ⟨e'', List.mem_cons_of_mem e hm, h1, h2, ?_⟩
            simpa [syncStateGo, hs, hf] using h3
      · have hs' : e.2.isSyncing = false := by
          cases hy : e.2.isSyncing
          · rfl
          · exact absurd hy hs
        rcases h with ⟨e', he', hsy, hty⟩
        rcases List.mem_cons.mp he' with rfl | hmem
        · exact absurd hsy hs
        · rcases ih acc ⟨e', hmem, hsy, hty⟩ with ⟨e'', hm, h1, h2, h3⟩
          refine ⟨e'', List.mem_cons_of_mem e hm, h1, h2, ?_⟩
          simpa [syncStateGo, hs'] using h3

/-- C3: `syncState` reports Finalized with the target of a syncing
Finalized-type chain whenever one exists (taking precedence over syncing Head
chains); otherwise Head with the targets of the syncing Head-type chains when
there are any; otherwise Idle — and it is Idle exactly when no chain is
actively syncing. -/
theorem syncState_finalized_precedence :
    ∀ state : RangeSync,
      (RangeSync.syncState state = RangeSyncState.Idle ↔
        ∀ e ∈ state.chains, e.2.isSyncing = false) ∧
      ((∃ e ∈ state.chains, e.2.isSyncing = true ∧ e.2.syncType = RangeSyncType.Finalized) →
        ∃ e ∈ state.chains, e.2.isSyncing = true ∧ e.2.syncType = RangeSyncType.Finalized ∧
          RangeSync.syncState state = RangeSyncState.Finalized e.2.target) ∧
      ((∀ e ∈ state.chains, e.2.isSyncing = true → e.2.syncType ≠ RangeSyncType.Finalized) →
        RangeSync.syncState state =
          (if (syncingHeadTargetsOf state).isEmpty then RangeSyncState.Idle
           else RangeSyncState.Head (syncingHeadTargetsOf state))) := by
  intro state
  have hfin := syncStateGo_syncing_finalized state.chains []
  have hnof := syncStateGo_no_syncing_finalized state.chains []
  refine ⟨⟨?_, ?_⟩, ?_, ?_⟩
  · intro hIdle e he
    cases hy : e.2.isSyncing
    · rfl
    · exfalso
      by_cases hex : ∃ e' ∈ state.chains, e'.2.isSyncing = true ∧ e'.2.syncType = RangeSyncType.Finalized
      · rcases hfin hex with ⟨e', _, _, _, hres⟩
        rw [show RangeSync.syncState state = syncStateGo state.chains [] from rfl, hres] at hIdle
        exact RangeSyncState.noConfusion hIdle
      · push_neg at hex
        have h3 := hnof (fun e' he' hs hf => hex e' he' hs hf)
        have htmem : e.2.target ∈ syncingHeadTargetsOf state := by
          have hhead : e.2.syncType = RangeSyncType.Head := by
            cases hy2 : e.2.syncType
            · exact absurd hy2 (hex e he hy)
            · rfl
          simp only [syncingHeadTargetsOf, List.mem_map]
          exact ⟨e, List.mem_filter.mpr ⟨he, by simp [hy, hhead]⟩, rfl⟩
        have hne : (syncingHeadTargetsOf state).isEmpty = false := by
          cases hts : syncingHeadTargetsOf state
          · rw [hts] at htmem
            exact absurd htmem (List.not_mem_nil _)
          · rfl
        rw [show RangeSync.syncState state = syncStateGo state.chains [] from rfl, h3] at hIdle
        rw [List.nil_append] at hIdle
        rw [hne] at hIdle
        exact RangeSyncState.noConfusion (hIdle.symm)
  · intro hall
    have h3 := hnof (fun e he hs => absurd hs (by simp [hall e he]))
    have hnil : syncingHeadTargetsOf state = [] := by
      simp only [syncingHeadTargetsOf]
      rw [List.filter_eq_nil_iff.mpr]
      · rfl
      · intro e he
        simp [hall e he]
    rw [show RangeSync.syncState state = syncStateGo state.chains [] from rfl, h3, hnil]
    simp
  · intro hex
    exact hfin hex
  · intro hno
    have h3 := hnof hno
    rw [show RangeSync.syncState state = syncStateGo state.chains [] from rfl, h3,
      List.nil_append]

/-- C5: inside `addPeer`, a Finalized-classified peer yields a chain starting
at the local finalized epoch with the peer's claimed finalized point as target
(start slot of the peer's finalized epoch, peer's finalized root), while a
Head-classified peer yields a chain starting at the minimum of the epoch of
the local head slot and the peer's finalized epoch, with the peer's head point
as target. -/
theorem addPeer_start_epoch_and_target :
    ∀ (config : BeaconConfig) (shouldRemoveChain : SyncChain → Slot → Bool)
      (state : RangeSync) (peer : PeerId) (localStatus peerStatus : Status),
      (getRangeSyncType localStatus peerStatus = RangeSyncType.Finalized →
        RangeSync.addPeer config shouldRemoveChain state peer localStatus peerStatus
          = RangeSync.update config shouldRemoveChain
              (RangeSync.addPeerOrCreateChain (RangeSync.removePeer state peer)
                localStatus.finalizedEpoch
                { slot := computeStartSlotAtEpoch config peerStatus.finalizedEpoch,
                  root := peerStatus.finalizedRoot }
                peer RangeSyncType.Finalized)
              localStatus.finalizedEpoch) ∧
      (getRangeSyncType localStatus peerStatus = RangeSyncType.Head →
        RangeSync.addPeer config shouldRemoveChain state peer localStatus peerStatus
          = RangeSync.update config shouldRemoveChain
              (RangeSync.addPeerOrCreateChain (RangeSync.removePeer state peer)
                (min (computeEpochAtSlot config localStatus.headSlot) peerStatus.finalizedEpoch)
                { slot := peerStatus.headSlot, root := peerStatus.headRoot }
                peer RangeSyncType.Finalized)
              localStatus.finalizedEpoch) := by
  intro config shouldRemoveChain state peer localStatus peerStatus
  constructor <;> intro h <;>
    simp only [RangeSync.addPeer, h, decideStartAndTarget]

/-- Witness for C5: one concrete Finalized-classified and one concrete
Head-classified peer addition. -/
theorem addPeer_start_epoch_and_target_witness :
    (RangeSync.addPeer sampleConfig (fun _ _ => false) (RangeSync.mk []) 1
        localStatusFinalizedCase peerStatusFinalizedCase
      = RangeSync.update sampleConfig (fun _ _ => false)
          (RangeSync.addPeerOrCreateChain
            (RangeSync.removePeer (RangeSync.mk []) 1)
            localStatusFinalizedCase.finalizedEpoch
            { slot := computeStartSlotAtEpoch sampleConfig peerStatusFinalizedCase.finalizedEpoch,
              root := peerStatusFinalizedCase.finalizedRoot }
            1 RangeSyncType.Finalized)
          localStatusFinalizedCase.finalizedEpoch) ∧
    (RangeSync.addPeer sampleConfig (fun _ _ => false) (RangeSync.mk []) 2
        localStatusHeadCase peerStatusHeadCase
      = RangeSync.update sampleConfig (fun _ _ => false)
          (RangeSync.addPeerOrCreateChain
            (RangeSync.removePeer (RangeSync.mk []) 2)
            (min (computeEpochAtSlot sampleConfig localStatusHeadCase.headSlot)
              peerStatusHeadCase.finalizedEpoch)
            { slot := peerStatusHeadCase.headSlot, root := peerStatusHeadCase.headRoot }
            2 RangeSyncType.Finalized)
          localStatusHeadCase.finalizedEpoch) :=
  ⟨(addPeer_start_epoch_and_target sampleConfig (fun _ _ => false) (RangeSync.mk []) 1
      localStatusFinalizedCase peerStatusFinalizedCase).1 (by decide),
   (addPeer_start_epoch_and_target sampleConfig (fun _ _ => false) (RangeSync.mk []) 2
      localStatusHeadCase peerStatusHeadCase).2 (by decide)⟩

/-- C1 (failing): at range.ts line 153 `addPeer` passes the constant
`RangeSyncType.Finalized` to `addPeerOrCreateChain` instead of the computed
`rangeSyncType`, so a Head-classified peer is attached to a Finalized-type
chain: here the concrete peer is classified Head, yet after `addPeer` the
single chain holding it has `syncType = Finalized`. -/
theorem addPeer_attaches_head_classified_peer_to_finalized_chain :
    getRangeSyncType localStatusHeadCase peerStatusHeadCase = RangeSyncType.Head ∧
    ((RangeSync.addPeer sampleConfig (fun _ _ => false) (RangeSync.mk []) 1
        localStatusHeadCase peerStatusHeadCase).1.chains.map (fun e => e.2.syncType)
      = [RangeSyncType.Finalized]) ∧
    (∃ e ∈ (RangeSync.addPeer sampleConfig (fun _ _ => false) (RangeSync.mk []) 1
        localStatusHeadCase peerStatusHeadCase).1.chains,
      1 ∈ e.2.peers ∧ e.2.syncType = RangeSyncType.Finalized) := by
  refine ⟨rfl, rfl, ?_⟩
  decide

/-- Decimal digit characters are distinct below 10. -/
theorem digitToChar_inj_lt : ∀ a, a < 10 → ∀ b, b < 10 → digitToChar a = digitToChar b → a = b := by
  decide

/-- Decimal digit characters are never the separator dash. -/
theorem digitToChar_ne_dash : ∀ a, a < 10 → digitToChar a ≠ '-' := by
  decide

/-- Hexadecimal digit characters are distinct below 16. -/
theorem hexDigitChar_inj_lt : ∀ a, a < 16 → ∀ b, b < 16 → hexDigitChar a = hexDigitChar b → a = b := by
  decide

/-- The decimal representation of a slot contains no dash. -/
theorem dash_not_mem_decRepChars (n : Nat) : '-' ∉ decRepChars n := by
  unfold decRepChars
  split
  · simp
  · intro hmem
    rw [List.mem_reverse] at hmem
    rcases List.mem_map.mp hmem with ⟨d, hd, he⟩
    exact digitToChar_ne_dash d (Nat.digits_lt_base (by norm_num) hd) he

/-- Mapping `digitToChar` over digit lists below 10 is injective. -/
theorem map_digitToChar_inj :
    ∀ (l₁ l₂ : List Nat), (∀ d ∈ l₁, d < 10) → (∀ d ∈ l₂, d < 10) →
      l₁.map digitToChar = l₂.map digitToChar → l₁ = l₂ := by
  intro l₁
  induction l₁ with
  | nil =>
      intro l₂ _ _ h
      cases l₂ with
      | nil => rfl
      | cons b bs => simp at h
  | cons a as ih =>
      intro l₂ h1 h2 h
      cases l₂ with
      | nil => simp at h
      | cons b bs =>
          simp only [List.map_cons, List.cons.injEq] at h
          have hab : a = b :=
            digitToChar_inj_lt a (h1 a (List.mem_cons_self a as))
              b (h2 b (List.mem_cons_self b bs)) h.1
          have hrest := ih bs (fun d hd => h1 d (List.mem_cons_of_mem a hd))
            (fun d hd => h2 d (List.mem_cons_of_mem b hd)) h.2
          rw [hab, hrest]

/-- The decimal representation of a nonnegative number is injective. -/
theorem decRepChars_injective : ∀ m n : Nat, decRepChars m = decRepChars n → m = n := by
  have core : ∀ k : Nat, k ≠ 0 → ((Nat.digits 10 k).map digitToChar).reverse = ['0'] → False := by
    intro k hk h
    have h' : (Nat.digits 10 k).map digitToChar = ['0'] := by
      have := congrArg List.reverse h
      simpa using this
    cases hd : Nat.digits 10 k with
    | nil => rw [hd] at h'; simp at h'
    | cons d ds =>
        rw [hd] at h'
        simp only [List.map_cons, List.cons.injEq] at h'
        have hds : ds = [] := by simpa using h'.2
        have hdlt : d < 10 :=
          Nat.digits_lt_base (by norm_num) (hd ▸ List.mem_cons_self d ds)
        have hd0 : d = 0 := digitToChar_inj_lt d hdlt 0 (by norm_num) h'.1
        have hk0 : k = 0 := by
          have hofd := congrArg (Nat.ofDigits 10) hd
          rw [Nat.ofDigits_digits] at hofd
          rw [hds, hd0] at hofd
          simpa [Nat.ofDigits] using hofd
        exact hk hk0
  intro m n h
  unfold decRepChars at h
  by_cases hm : m = 0 <;> by_cases hn : n = 0
  · rw [hm, hn]
  · rw [if_pos hm, if_neg hn] at h
    exact absurd (h.symm) (fun hh => core n hn hh)
  · rw [if_neg hm, if_pos hn] at h
    exact absurd h (fun hh => core m hm hh)
  · rw [if_neg hm, if_neg hn] at h
    have h' := List.reverse_injective h
    have hdig := map_digitToChar_inj _ _
      (fun d hd => Nat.digits_lt_base (by norm_num) hd)
      (fun d hd => Nat.digits_lt_base (by norm_num) hd) h'
    have := congrArg (Nat.ofDigits 10) hdig
    rwa [Nat.ofDigits_digits, Nat.ofDigits_digits] at this

/-- The two hex characters of a byte determine the byte. -/
theorem bytePairChars_inj : ∀ a b : RootByte, bytePairChars a = bytePairChars b → a = b := by
  intro a b h
  simp only [bytePairChars, List.cons.injEq, and_true] at h
  have ha := a.isLt
  have hb := b.isLt
  have h1 := hexDigitChar_inj_lt (a.val / 16) (by omega) (b.val / 16) (by omega) h.1
  have h2 := hexDigitChar_inj_lt (a.val % 16) (by omega) (b.val % 16) (by omega) h.2
  apply Fin.ext
  omega

/-- The hex body of a byte list determines the byte list. -/
theorem bytesToHexChars_inj : ∀ r₁ r₂ : Root, bytesToHexChars r₁ = bytesToHexChars r₂ → r₁ = r₂ := by
  intro r₁
  induction r₁ with
  | nil =>
      intro r₂ h
      cases r₂ with
      | nil => rfl
      | cons b bs => simp [bytesToHexChars, bytePairChars] at h
  | cons a as ih =>
      intro r₂ h
      cases r₂ with
      | nil => simp [bytesToHexChars, bytePairChars] at h
      | cons b bs =>
          simp only [bytesToHexChars, List.flatMap_cons, bytePairChars,
            List.cons_append, List.nil_append, List.cons.injEq] at h
          obtain ⟨h1, h2, h3⟩ := h
          have hab : a = b := bytePairChars_inj a b (by simp [bytePairChars, h1, h2])
          have hrest : as = bs := ih bs (by simpa [bytesToHexChars] using h3)
          rw [hab, hrest]

/-- Splitting two dash-separated strings at the first dash of each. -/
theorem append_dash_inj :
    ∀ (s₁ s₂ t₁ t₂ : List Char), '-' ∉ s₁ → '-' ∉ s₂ →
      s₁ ++ '-' :: t₁ = s₂ ++ '-' :: t₂ → s₁ = s₂ ∧ t₁ = t₂ := by
  intro s₁
  induction s₁ with
  | nil =>
      intro s₂ t₁ t₂ h1 h2 h
      cases s₂ with
      | nil => simpa using h
      | cons c cs =>
          simp only [List.nil_append, List.cons_append, List.cons.injEq] at h
          exact absurd (h.1 ▸ List.mem_cons_self c cs) h2
  | cons a as ih =>
      intro s₂ t₁ t₂ h1 h2 h
      cases s₂ with
      | nil =>
          simp only [List.nil_append, List.cons_append, List.cons.injEq] at h
          exact absurd (h.1 ▸ List.mem_cons_self a as) h1
      | cons b bs =>
          simp only [List.cons_append, List.cons.injEq] at h
          have hrest := ih bs t₁ t₂ (fun hm => h1 (List.mem_cons_of_mem a hm))
            (fun hm => h2 (List.mem_cons_of_mem b hm)) h.2
          exact ⟨by rw [h.1, hrest.1], hrest.2⟩

/-- Normal form of the chain id as nested dash-separated segments. -/
theorem getSyncChainId_eq (t : RangeSyncType) (tg : ChainTarget) :
    getSyncChainId t tg
      = syncTypeChars t ++ '-' :: (decRepChars tg.slot ++ '-' :: toHexStringChars tg.root) := by
  unfold getSyncChainId
  simp [List.append_assoc]

/-- The enum character never collides with the separator dash. -/
theorem dash_not_mem_syncTypeChars : ∀ t : RangeSyncType, '-' ∉ syncTypeChars t := by
  intro t
  cases t <;> simp [syncTypeChars]

/-- The chain id determines the sync type and the full target: `getSyncChainId`
is injective on `(syncType, target.slot, target.root)`. -/
theorem getSyncChainId_injective :
    ∀ (t₁ t₂ : RangeSyncType) (tg₁ tg₂ : ChainTarget),
      getSyncChainId t₁ tg₁ = getSyncChainId t₂ tg₂ → t₁ = t₂ ∧ tg₁ = tg₂ := by
  intro t₁ t₂ tg₁ tg₂ h
  rw [getSyncChainId_eq, getSyncChainId_eq] at h
  have hsplit1 := append_dash_inj _ _ _ _
    (dash_not_mem_syncTypeChars t₁) (dash_not_mem_syncTypeChars t₂) h
  have ht : t₁ = t₂ := by
    cases t₁ <;> cases t₂ <;> first
      | rfl
      | exact absurd hsplit1.1 (by decide)
  have hsplit2 := append_dash_inj _ _ _ _
    (dash_not_mem_decRepChars tg₁.slot) (dash_not_mem_decRepChars tg₂.slot) hsplit1.2
  have hslot : tg₁.slot = tg₂.slot := decRepChars_injective _ _ hsplit2.1
  have hhex := hsplit2.2
  simp only [toHexStringChars, List.cons.injEq, true_and] at hhex
  have hroot : tg₁.root = tg₂.root := bytesToHexChars_inj _ _ hhex
  refine ⟨ht, ?_⟩
  cases tg₁
  cases tg₂
  simp_all

/-- Reading the map at the key of a just-written entry yields that entry. -/
theorem mapGet_mapSet_same : ∀ (m : List (SyncChainId × SyncChain)) (k : SyncChainId) (v : SyncChain),
    mapGet (mapSet m k v) k = some v := by
  intro m k v
  induction m with
  | nil => simp [mapSet, mapGet, List.find?]
  | cons e rest ih =>
      by_cases he : e.1 = k
      · simp [mapSet, if_pos he, mapGet, List.find?]
      · simp only [mapSet, if_neg he]
        unfold mapGet
        rw [List.find?_cons_of_neg _ (by simp [he])]
        exact ih

/-- Reading a cons cell whose head misses the key skips the head. -/
theorem mapGet_cons_neg (e : SyncChainId × SyncChain) (rest : List (SyncChainId × SyncChain))
    (k : SyncChainId) (h : e.1 ≠ k) : mapGet (e :: rest) k = mapGet rest k := by
  unfold mapGet
  rw [List.find?_cons_of_neg _ (by simp [h])]

/-- Writing at a key already present leaves the key sequence unchanged. -/
theorem mapSet_keys_of_get_some :
    ∀ (m : List (SyncChainId × SyncChain)) (k : SyncChainId) (c v : SyncChain),
      mapGet m k = some c → (mapSet m k v).map Prod.fst = m.map Prod.fst := by
  intro m k c v
  induction m with
  | nil =>
      intro h
      simp [mapGet, List.find?] at h
  | cons e rest ih =>
      intro h
      by_cases he : e.1 = k
      · simp [mapSet, if_pos he, List.map_cons, he]
      · rw [mapGet_cons_neg e rest k he] at h
        simp only [mapSet, if_neg he, List.map_cons]
        rw [ih h]

/-- Shape of the chains map after `addPeerOrCreateChain` when the id exists. -/
theorem addPeerOrCreateChain_chains_of_get_some
    (s : RangeSync) (e : Epoch) (tg : ChainTarget) (p : PeerId) (t : RangeSyncType)
    (c : SyncChain) (h : mapGet s.chains (getSyncChainId t tg) = some c) :
    (RangeSync.addPeerOrCreateChain s e tg p t).chains
      = mapSet s.chains (getSyncChainId t tg) (c.addPeer p) := by
  simp only [RangeSync.addPeerOrCreateChain]
  rw [h]

/-- Shape of the chains map after `addPeerOrCreateChain` when the id is new. -/
theorem addPeerOrCreateChain_chains_of_get_none
    (s : RangeSync) (e : Epoch) (tg : ChainTarget) (p : PeerId) (t : RangeSyncType)
    (h : mapGet s.chains (getSyncChainId t tg) = none) :
    (RangeSync.addPeerOrCreateChain s e tg p t).chains
      = mapSet s.chains (getSyncChainId t tg) ((SyncChain.new e tg t).addPeer p) := by
  simp only [RangeSync.addPeerOrCreateChain]
  rw [h]

/-- After `addPeerOrCreateChain` the chain at the derived id is the old (or
freshly created) chain with the peer added. -/
theorem addPeerOrCreateChain_get (s : RangeSync) (e : Epoch) (tg : ChainTarget)
    (p : PeerId) (t : RangeSyncType) :
    mapGet (RangeSync.addPeerOrCreateChain s e tg p t).chains (getSyncChainId t tg)
      = some (SyncChain.addPeer
          (match mapGet s.chains (getSyncChainId t tg) with
           | some c => c
           | none => SyncChain.new e tg t) p) := by
  cases hg : mapGet s.chains (getSyncChainId t tg) with
  | some c => rw [addPeerOrCreateChain_chains_of_get_some s e tg p t c hg, mapGet_mapSet_same]
  | none => rw [addPeerOrCreateChain_chains_of_get_none s e tg p t hg, mapGet_mapSet_same]

/-- C4: the chain id is a deterministic, injective function of
`(syncType, target.slot, target.root)`; consequently a second
`addPeerOrCreateChain` with the same sync type and the identical target
creates no new chain and does not replace the existing one — the key sequence
of the map is unchanged and the chain at the derived id is exactly the chain
of the first call with the second peer added to its pool. -/
theorem chainId_injective_and_identical_target_collapses :
    (∀ (t₁ t₂ : RangeSyncType) (tg₁ tg₂ : ChainTarget),
        getSyncChainId t₁ tg₁ = getSyncChainId t₂ tg₂ → t₁ = t₂ ∧ tg₁ = tg₂) ∧
    (∀ (state : RangeSync) (e₁ e₂ : Epoch) (p₁ p₂ : PeerId)
        (t : RangeSyncType) (tg : ChainTarget),
      ((RangeSync.addPeerOrCreateChain
            (RangeSync.addPeerOrCreateChain state e₁ tg p₁ t) e₂ tg p₂ t).chains.map Prod.fst
          = (RangeSync.addPeerOrCreateChain state e₁ tg p₁ t).chains.map Prod.fst) ∧
      mapGet (RangeSync.addPeerOrCreateChain
            (RangeSync.addPeerOrCreateChain state e₁ tg p₁ t) e₂ tg p₂ t).chains
          (getSyncChainId t tg)
        = Option.map (fun c => SyncChain.addPeer c p₂)
            (mapGet (RangeSync.addPeerOrCreateChain state e₁ tg p₁ t).chains
              (getSyncChainId t tg))) := by
  constructor
  · exact getSyncChainId_injective
  · intro state e₁ e₂ p₁ p₂ t tg
    have hg₁ := addPeerOrCreateChain_get state e₁ tg p₁ t
    constructor
    · rw [addPeerOrCreateChain_chains_of_get_some _ e₂ tg p₂ t _ hg₁]
      exact mapSet_keys_of_get_some _ _ _ _ hg₁
    · rw [addPeerOrCreateChain_chains_of_get_some _ e₂ tg p₂ t _ hg₁, mapGet_mapSet_same, hg₁]
      rfl

/-- Witness for C4 at a concrete sync type, target and peers. -/
theorem chainId_injective_and_identical_target_collapses_witness :
    (RangeSyncType.Head = RangeSyncType.Head ∧ sampleTarget = sampleTarget) ∧
    ((RangeSync.addPeerOrCreateChain
          (RangeSync.addPeerOrCreateChain (RangeSync.mk []) 0 sampleTarget 1 RangeSyncType.Head)
          0 sampleTarget 2 RangeSyncType.Head).chains.map Prod.fst
        = (RangeSync.addPeerOrCreateChain (RangeSync.mk [])
            0 sampleTarget 1 RangeSyncType.Head).chains.map Prod.fst) :=
  ⟨chainId_injective_and_identical_target_collapses.1
      RangeSyncType.Head RangeSyncType.Head sampleTarget sampleTarget rfl,
    (chainId_injective_and_identical_target_collapses.2
      (RangeSync.mk []) 0 0 1 2 RangeSyncType.Head sampleTarget).1⟩

/-- Unfolding of `update`'s resulting chains map. -/
theorem update_fst_chains (config : BeaconConfig) (pred : SyncChain → Slot → Bool)
    (s : RangeSync) (ep : Epoch) :
    (RangeSync.update config pred s ep).1.chains
      = applyStarts (updateChains (s.chains.filter
            (fun e => ¬ pred e.2 (computeStartSlotAtEpoch config ep) = true))).2
          (applyStops (updateChains (s.chains.filter
            (fun e => ¬ pred e.2 (computeStartSlotAtEpoch config ep) = true))).1
            (s.chains.filter (fun e => ¬ pred e.2 (computeStartSlotAtEpoch config ep) = true))) :=
  rfl

/-- Pausing chains does not change any pool, hence no membership count. -/
theorem countP_peers_applyStops (ts : List SyncChainId) (l : List (SyncChainId × SyncChain))
    (q : PeerId) :
    List.countP (fun e => decide (q ∈ e.2.peers)) (applyStops ts l)
      = List.countP (fun e => decide (q ∈ e.2.peers)) l := by
  unfold applyStops
  rw [List.countP_map]
  apply List.countP_congr
  intro e he
  by_cases h1 : e.1 ∈ ts <;> simp [h1, Function.comp, SyncChain.stopSyncing]

/-- Resuming chains does not change any pool, hence no membership count. -/
theorem countP_peers_applyStarts (ts : List SyncChainId) (l : List (SyncChainId × SyncChain))
    (q : PeerId) :
    List.countP (fun e => decide (q ∈ e.2.peers)) (applyStarts ts l)
      = List.countP (fun e => decide (q ∈ e.2.peers)) l := by
  unfold applyStarts
  rw [List.countP_map]
  apply List.countP_congr
  intro e he
  by_cases h1 : e.1 ∈ ts <;> simp [h1, Function.comp, SyncChain.startSyncing]

/-- An `update` pass never grows the number of chains holding a given peer. -/
theorem chainsContaining_update_le (config : BeaconConfig) (pred : SyncChain → Slot → Bool)
    (s : RangeSync) (ep : Epoch) (q : PeerId) :
    chainsContaining (RangeSync.update config pred s ep).1 q ≤ chainsContaining s q := by
  unfold chainsContaining
  rw [update_fst_chains, countP_peers_applyStarts, countP_peers_applyStops]
  exact List.Sublist.countP_le _ (List.filter_sublist _)

/-- Overwriting an existing key with a value indistinguishable to the
predicate keeps the count. -/
theorem countP_mapSet_of_get_some :
    ∀ (m : List (SyncChainId × SyncChain)) (k : SyncChainId) (c v : SyncChain)
      (pr : SyncChainId × SyncChain → Bool),
      mapGet m k = some c → pr (k, v) = pr (k, c) →
      List.countP pr (mapSet m k v) = List.countP pr m := by
  intro m k c v pr
  induction m with
  | nil =>
      intro h _
      simp [mapGet, List.find?] at h
  | cons e rest ih =>
      intro h hpr
      by_cases he : e.1 = k
      · have hc : c = e.2 := by
          unfold mapGet at h
          rw [List.find?_cons_of_pos _ (by simp [he])] at h
          simpa using h.symm
        simp only [mapSet, if_pos he]
        rw [List.countP_cons, List.countP_cons]
        have hpe : pr (k, v) = pr e := by
          rw [hpr, hc]
          rw [show (k, e.2) = e from by rw [← he]]
        rw [hpe]
      · rw [mapGet_cons_neg e rest k he] at h
        simp only [mapSet, if_neg he]
        rw [List.countP_cons, List.countP_cons, ih h hpr]

/-- Writing a missing key appends the entry. -/
theorem mapSet_of_get_none :
    ∀ (m : List (SyncChainId × SyncChain)) (k : SyncChainId) (v : SyncChain),
      mapGet m k = none → mapSet m k v = m ++ [(k, v)] := by
  intro m k v
  induction m with
  | nil => intro _; rfl
  | cons e rest ih =>
      intro h
      by_cases he : e.1 = k
      · unfold mapGet at h
        rw [List.find?_cons_of_pos _ (by simp [he])] at h
        simp at h
      · rw [mapGet_cons_neg e rest k he] at h
        simp only [mapSet, if_neg he, List.cons_append]
        rw [ih h]

/-- One write adds at most one satisfying entry. -/
theorem countP_mapSet_le :
    ∀ (m : List (SyncChainId × SyncChain)) (k : SyncChainId) (v : SyncChain)
      (pr : SyncChainId × SyncChain → Bool),
      List.countP pr (mapSet m k v) ≤ List.countP pr m + 1 := by
  intro m k v pr
  induction m with
  | nil =>
      simp only [mapSet, List.countP_cons, List.countP_nil]
      split <;> omega
  | cons e rest ih =>
      by_cases he : e.1 = k
      · simp only [mapSet, if_pos he, List.countP_cons]
        split <;> split <;> omega
      · simp only [mapSet, if_neg he, List.countP_cons]
        split <;> omega

/-- Removing a peer empties every pool of it. -/
theorem chainsContaining_removePeer_self (s : RangeSync) (p : PeerId) :
    chainsContaining (RangeSync.removePeer s p) p = 0 := by
  unfold chainsContaining RangeSync.removePeer
  simp only [List.countP_map]
  rw [List.countP_eq_zero]
  intro e he
  simp [Function.comp, SyncChain.removePeer, List.mem_filter]

/-- Removing one peer leaves the counts of the others unchanged. -/
theorem chainsContaining_removePeer_other (s : RangeSync) (p q : PeerId) (h : q ≠ p) :
    chainsContaining (RangeSync.removePeer s p) q = chainsContaining s q := by
  unfold chainsContaining RangeSync.removePeer
  simp only [List.countP_map]
  apply List.countP_congr
  intro e he
  simp [Function.comp, SyncChain.removePeer, List.mem_filter, h]

/-- The chains map after `addPeerOrCreateChain` is a single write. -/
theorem addPeerOrCreateChain_chains_is_mapSet (s : RangeSync) (e : Epoch)
    (tg : ChainTarget) (p : PeerId) (t : RangeSyncType) :
    ∃ v, (RangeSync.addPeerOrCreateChain s e tg p t).chains
      = mapSet s.chains (getSyncChainId t tg) v := by
  cases hg : mapGet s.chains (getSyncChainId t tg) with
  | some c => exact ⟨_, addPeerOrCreateChain_chains_of_get_some s e tg p t c hg⟩
  | none => exact ⟨_, addPeerOrCreateChain_chains_of_get_none s e tg p t hg⟩

/-- Attaching one peer does not change the counts of the others. -/
theorem chainsContaining_addPeerOrCreateChain_other (s : RangeSync) (e : Epoch)
    (tg : ChainTarget) (p : PeerId) (t : RangeSyncType) (q : PeerId) (h : q ≠ p) :
    chainsContaining (RangeSync.addPeerOrCreateChain s e tg p t) q = chainsContaining s q := by
  unfold chainsContaining
  cases hg : mapGet s.chains (getSyncChainId t tg) with
  | some c =>
      rw [addPeerOrCreateChain_chains_of_get_some s e tg p t c hg]
      apply countP_mapSet_of_get_some _ _ c _ _ hg
      simp only [SyncChain.addPeer]
      split
      · rfl
      · simp [List.mem_append, h]
  | none =>
      rw [addPeerOrCreateChain_chains_of_get_none s e tg p t hg,
        mapSet_of_get_none s.chains _ _ hg, List.countP_append]
      simp [SyncChain.new, SyncChain.addPeer, List.countP_cons, h]

/-- Attaching a peer nowhere else present puts it in at most one pool. -/
theorem chainsContaining_addPeerOrCreateChain_self_le (s : RangeSync) (e : Epoch)
    (tg : ChainTarget) (p : PeerId) (t : RangeSyncType)
    (h : chainsContaining s p = 0) :
    chainsContaining (RangeSync.addPeerOrCreateChain s e tg p t) p ≤ 1 := by
  obtain ⟨v, hv⟩ := addPeerOrCreateChain_chains_is_mapSet s e tg p t
  unfold chainsContaining at h ⊢
  rw [hv]
  have hle := countP_mapSet_le s.chains (getSyncChainId t tg) v
    (fun e => decide (p ∈ e.2.peers))
  omega

/-- One `addPeer` event preserves the at-most-one-pool invariant. -/
theorem addPeer_preserves_peerUnique (config : BeaconConfig)
    (pred : SyncChain → Slot → Bool) (s : RangeSync) (p : PeerId)
    (ls ps : Status) (hs : ∀ r, chainsContaining s r ≤ 1) :
    ∀ q, chainsContaining (RangeSync.addPeer config pred s p ls ps).1 q ≤ 1 := by
  intro q
  have hstep : (RangeSync.addPeer config pred s p ls ps).1
      = (RangeSync.update config pred
          (RangeSync.addPeerOrCreateChain (RangeSync.removePeer s p)
            (decideStartAndTarget config (getRangeSyncType ls ps) ls ps).1
            (decideStartAndTarget config (getRangeSyncType ls ps) ls ps).2
            p RangeSyncType.Finalized) ls.finalizedEpoch).1 := rfl
  rw [hstep]
  refine le_trans (chainsContaining_update_le _ _ _ _ _) ?_
  by_cases hq : q = p
  · subst hq
    exact chainsContaining_addPeerOrCreateChain_self_le _ _ _ _ _
      (chainsContaining_removePeer_self s q)
  · rw [chainsContaining_addPeerOrCreateChain_other _ _ _ _ _ _ hq,
      chainsContaining_removePeer_other _ _ _ hq]
    exact hs q

/-- Every reachable state keeps each peer in at most one pool. -/
theorem runOps_preserves_peerUnique (config : BeaconConfig)
    (pred : SyncChain → Slot → Bool) :
    ∀ (ops : List PeerOp) (s : RangeSync), (∀ r, chainsContaining s r ≤ 1) →
      ∀ r, chainsContaining (runOps config pred ops s) r ≤ 1 := by
  intro ops
  induction ops with
  | nil => intro s hs r; exact hs r
  | cons op rest ih =>
      intro s hs r
      apply ih
      intro q
      cases op with
      | add p lls pps => exact addPeer_preserves_peerUnique config pred s p lls pps hs q
      | remove p =>
          show chainsContaining (RangeSync.removePeer s p) q ≤ 1
          by_cases hq : q = p
          · subst hq
            rw [chainsContaining_removePeer_self]
            omega
          · rw [chainsContaining_removePeer_other _ _ _ hq]
            exact hs q

/-- C2: over every sequence of `addPeer` and `removePeer` events starting from
the empty orchestrator, a peer id is present in at most one chain's pool at
every instant — `addPeer` removes the peer from every pool before attaching
it to one chain. -/
theorem peer_in_at_most_one_chain_pool :
    ∀ (config : BeaconConfig) (shouldRemoveChain : SyncChain → Slot → Bool)
      (ops : List PeerOp) (peer : PeerId),
      chainsContaining (runOps config shouldRemoveChain ops (RangeSync.mk [])) peer ≤ 1 := by
  intro config pred ops peer
  exact runOps_preserves_peerUnique config pred ops (RangeSync.mk [])
    (fun r => by simp [chainsContaining]) peer

/-- A fold that at each step keeps either the accumulator or the new element
ends on one of the candidates. -/
theorem foldl_choice_mem {α : Type} (f : α → α → α)
    (hf : ∀ b c, f b c = b ∨ f b c = c) :
    ∀ (l : List α) (a : α), l.foldl f a ∈ a :: l := by
  intro l
  induction l with
  | nil =>
      intro a
      simp
  | cons x xs ih =>
      intro a
      simp only [List.foldl_cons]
      rcases List.mem_cons.mp (ih (f a x)) with h | h
      · rcases hf a x with h2 | h2 <;> rw [h, h2]
        · exact List.mem_cons_self a (x :: xs)
        · exact List.mem_cons_of_mem a (List.mem_cons_self x xs)
      · exact List.mem_cons_of_mem a (List.mem_cons_of_mem x h)

/-- Every id selected to stop or start belongs to a chain of the input. -/
theorem updateChains_mem (l : List (SyncChainId × SyncChain)) (id : SyncChainId) :
    (id ∈ (updateChains l).1 ∨ id ∈ (updateChains l).2) → ∃ c, (id, c) ∈ l := by
  intro h
  unfold updateChains at h
  have hhead : id ∈ (l.filter (fun e => decide (e.2.syncType = RangeSyncType.Head))).map
      (fun e => e.1) → ∃ c, (id, c) ∈ l := by
    intro hm
    rcases List.mem_map.mp hm with ⟨e, he, hei⟩
    exact ⟨e.2, by rw [← hei]; exact List.mem_of_mem_filter he⟩
  cases hfe : l.filter (fun e => decide (e.2.syncType = RangeSyncType.Finalized)) with
  | nil =>
      rw [hfe] at h
      rcases h with h | h
      · simp at h
      · exact hhead h
  | cons f fs =>
      rw [hfe] at h
      rcases h with h | h
      · rcases List.mem_map.mp h with ⟨e, he, hei⟩
        have hef : e ∈ l.filter (fun e => decide (e.2.syncType = RangeSyncType.Finalized)) := by
          rw [hfe]
          exact List.mem_of_mem_filter he
        exact ⟨e.2, by rw [← hei]; exact List.mem_of_mem_filter hef⟩
      · rcases List.mem_cons.mp h with rfl | h
        · have hb := foldl_choice_mem
            (fun b c =>
              if b.2.peers.length < c.2.peers.length ∨
                  (b.2.peers.length = c.2.peers.length ∧ idLt c.1 b.1 = true) then c else b)
            (fun b c => by
              by_cases hc : b.2.peers.length < c.2.peers.length ∨
                  (b.2.peers.length = c.2.peers.length ∧ idLt c.1 b.1 = true)
              · right
                simp [hc]
              · left
                simp [hc]) fs f
          have hbf : (fs.foldl
              (fun b c =>
                if b.2.peers.length < c.2.peers.length ∨
                    (b.2.peers.length = c.2.peers.length ∧ idLt c.1 b.1 = true) then c else b) f)
              ∈ l.filter (fun e => decide (e.2.syncType = RangeSyncType.Finalized)) := by
            rw [hfe]
            exact hb
          refine ⟨(fs.foldl
              (fun b c =>
                if b.2.peers.length < c.2.peers.length ∨
                    (b.2.peers.length = c.2.peers.length ∧ idLt c.1 b.1 = true) then c else b) f).2,
            ?_⟩
          have := List.mem_of_mem_filter hbf
          simpa using this
        · exact hhead h

/-- With duplicate-free keys, an id determines the chain stored under it. -/
theorem keys_nodup_value_eq :
    ∀ (l : List (SyncChainId × SyncChain)), (l.map Prod.fst).Nodup →
      ∀ (id : SyncChainId) (c c' : SyncChain), (id, c) ∈ l → (id, c') ∈ l → c = c' := by
  intro l
  induction l with
  | nil =>
      intro _ id c c' h
      exact absurd h (List.not_mem_nil _)
  | cons e rest ih =>
      intro hnd id c c' h1 h2
      simp only [List.map_cons, List.nodup_cons] at hnd
      rcases List.mem_cons.mp h1 with he1 | h1'
      · rcases List.mem_cons.mp h2 with he2 | h2'
        · rw [← he1] at he2
          exact (Prod.mk.injEq _ _ _ _).mp he2.symm |>.2
        · exfalso
          apply hnd.1
          rw [← he1]
          exact List.mem_map.mpr ⟨(id, c'), h2', rfl⟩
      · rcases List.mem_cons.mp h2 with he2 | h2'
        · exfalso
          apply hnd.1
          rw [← he2]
          exact List.mem_map.mpr ⟨(id, c), h1', rfl⟩
        · exact ih hnd.2 id c c' h1' h2'

/-- Unfolding of `update`'s event trace. -/
theorem update_snd_eq (config : BeaconConfig) (pred : SyncChain → Slot → Bool)
    (state : RangeSync) (ep : Epoch) :
    (RangeSync.update config pred state ep).2
      = ((state.chains.filter
            (fun e => pred e.2 (computeStartSlotAtEpoch config ep) = true)).map
              (fun e => e.1)).map SyncEvent.removed
        ++ (updateChains (state.chains.filter
              (fun e => ¬ pred e.2 (computeStartSlotAtEpoch config ep) = true))).1.map
            SyncEvent.stopped
        ++ (updateChains (state.chains.filter
              (fun e => ¬ pred e.2 (computeStartSlotAtEpoch config ep) = true))).2.map
            SyncEvent.started :=
  rfl

/-- A removal event appears in the trace exactly for chains matching the
removal predicate. -/
theorem removed_mem_update_trace (config : BeaconConfig) (pred : SyncChain → Slot → Bool)
    (state : RangeSync) (ep : Epoch) (id : SyncChainId) :
    SyncEvent.removed id ∈ (RangeSync.update config pred state ep).2 ↔
      ∃ c, (id, c) ∈ state.chains ∧ pred c (computeStartSlotAtEpoch config ep) = true := by
  rw [update_snd_eq]
  constructor
  · intro hmem
    rcases List.mem_append.mp hmem with h12 | h3
    · rcases List.mem_append.mp h12 with h1 | h2
      · rcases List.mem_map.mp h1 with ⟨a, ha, hae⟩
        have hai := SyncEvent.removed.inj hae
        rcases List.mem_map.mp ha with ⟨e, he, he1⟩
        have hef := List.mem_filter.mp he
        refine ⟨e.2, ?_, of_decide_eq_true hef.2⟩
        rw [← hai, ← he1, Prod.mk.eta]
        exact hef.1
      · rcases List.mem_map.mp h2 with ⟨a, _, hae⟩
        exact SyncEvent.noConfusion hae
    · rcases List.mem_map.mp h3 with ⟨a, _, hae⟩
      exact SyncEvent.noConfusion hae
  · rintro ⟨c, hc, hp⟩
    apply List.mem_append_left
    apply List.mem_append_left
    apply List.mem_map.mpr
    refine ⟨id, ?_, rfl⟩
    apply List.mem_map.mpr
    exact ⟨(id, c), List.mem_filter.mpr ⟨hc, decide_eq_true hp⟩, rfl⟩

/-- A stop event appears in the trace exactly for the selected ids. -/
theorem stopped_mem_update_trace (config : BeaconConfig) (pred : SyncChain → Slot → Bool)
    (state : RangeSync) (ep : Epoch) (id : SyncChainId) :
    SyncEvent.stopped id ∈ (RangeSync.update config pred state ep).2 ↔
      id ∈ (updateChains (state.chains.filter
        (fun e => ¬ pred e.2 (computeStartSlotAtEpoch config ep) = true))).1 := by
  rw [update_snd_eq]
  constructor
  · intro hmem
    rcases List.mem_append.mp hmem with h12 | h3
    · rcases List.mem_append.mp h12 with h1 | h2
      · rcases List.mem_map.mp h1 with ⟨a, _, hae⟩
        exact SyncEvent.noConfusion hae
      · rcases List.mem_map.mp h2 with ⟨a, ha, hae⟩
        rw [← SyncEvent.stopped.inj hae]
        exact ha
    · rcases List.mem_map.mp h3 with ⟨a, _, hae⟩
      exact SyncEvent.noConfusion hae
  · intro hmem
    exact List.mem_append_left _ (List.mem_append_right _ (List.mem_map.mpr ⟨id, hmem, rfl⟩))

/-- A start event appears in the trace exactly for the selected ids. -/
theorem started_mem_update_trace (config : BeaconConfig) (pred : SyncChain → Slot → Bool)
    (state : RangeSync) (ep : Epoch) (id : SyncChainId) :
    SyncEvent.started id ∈ (RangeSync.update config pred state ep).2 ↔
      id ∈ (updateChains (state.chains.filter
        (fun e => ¬ pred e.2 (computeStartSlotAtEpoch config ep) = true))).2 := by
  rw [update_snd_eq]
  constructor
  · intro hmem
    rcases List.mem_append.mp hmem with h12 | h3
    · rcases List.mem_append.mp h12 with h1 | h2
      · rcases List.mem_map.mp h1 with ⟨a, _, hae⟩
        exact SyncEvent.noConfusion hae
      · rcases List.mem_map.mp h2 with ⟨a, _, hae⟩
        exact SyncEvent.noConfusion hae
    · rcases List.mem_map.mp h3 with ⟨a, ha, hae⟩
      rw [← SyncEvent.started.inj hae]
      exact ha
  · intro hmem
    exact List.mem_append_right _ (List.mem_map.mpr ⟨id, hmem, rfl⟩)

/-- C6: an `update` pass first removes every chain matching the removal
predicate; the stop/start selection is computed over the surviving chains
only, so all removal actions precede every stop/start action and a chain
removed in the pass is neither stopped nor started in it. -/
theorem update_evicts_first_then_selects_survivors :
    ∀ (config : BeaconConfig) (shouldRemoveChain : SyncChain → Slot → Bool)
      (state : RangeSync) (localFinalizedEpoch : Epoch),
      (state.chains.map Prod.fst).Nodup →
      (∀ (id : SyncChainId) (c : SyncChain), (id, c) ∈ state.chains →
        (shouldRemoveChain c (computeStartSlotAtEpoch config localFinalizedEpoch) = true ↔
          SyncEvent.removed id
            ∈ (RangeSync.update config shouldRemoveChain state localFinalizedEpoch).2)) ∧
      (∃ pre post,
        (RangeSync.update config shouldRemoveChain state localFinalizedEpoch).2 = pre ++ post ∧
        (∀ ev ∈ pre, ∃ id, ev = SyncEvent.removed id) ∧
        (∀ ev ∈ post, ∀ id, ev ≠ SyncEvent.removed id)) ∧
      (∀ id : SyncChainId,
        SyncEvent.removed id
            ∈ (RangeSync.update config shouldRemoveChain state localFinalizedEpoch).2 →
          SyncEvent.stopped id
              ∉ (RangeSync.update config shouldRemoveChain state localFinalizedEpoch).2 ∧
          SyncEvent.started id
              ∉ (RangeSync.update config shouldRemoveChain state localFinalizedEpoch).2) ∧
      (∀ id : SyncChainId,
        (SyncEvent.stopped id
            ∈ (RangeSync.update config shouldRemoveChain state localFinalizedEpoch).2 ∨
         SyncEvent.started id
            ∈ (RangeSync.update config shouldRemoveChain state localFinalizedEpoch).2) →
        ∃ c, (id, c) ∈ state.chains ∧
          shouldRemoveChain c (computeStartSlotAtEpoch config localFinalizedEpoch) = false) := by
  intro config pred state ep hnd
  have survivor_of_selected : ∀ id : SyncChainId,
      (id ∈ (updateChains (state.chains.filter
          (fun e => ¬ pred e.2 (computeStartSlotAtEpoch config ep) = true))).1 ∨
       id ∈ (updateChains (state.chains.filter
          (fun e => ¬ pred e.2 (computeStartSlotAtEpoch config ep) = true))).2) →
      ∃ c, (id, c) ∈ state.chains ∧ pred c (computeStartSlotAtEpoch config ep) = false := by
    intro id hsel
    rcases updateChains_mem _ id hsel with ⟨c, hc⟩
    have hcf := List.mem_filter.mp hc
    refine ⟨c, hcf.1, ?_⟩
    have hneg := of_decide_eq_true hcf.2
    cases hb : pred c (computeStartSlotAtEpoch config ep)
    · rfl
    · exact absurd hb hneg
  refine ⟨?_, ?_, ?_, ?_⟩
  · intro id c hc
    constructor
    · intro hp
      exact (removed_mem_update_trace config pred state ep id).mpr ⟨c, hc, hp⟩
    · intro hmem
      rcases (removed_mem_update_trace config pred state ep id).mp hmem with ⟨c', hc', hp'⟩
      rw [keys_nodup_value_eq state.chains hnd id c c' hc hc']
      exact hp'
  · refine ⟨((state.chains.filter
        (fun e => pred e.2 (computeStartSlotAtEpoch config ep) = true)).map
          (fun e => e.1)).map SyncEvent.removed,
      (updateChains (state.chains.filter
          (fun e => ¬ pred e.2 (computeStartSlotAtEpoch config ep) = true))).1.map
        SyncEvent.stopped
      ++ (updateChains (state.chains.filter
          (fun e => ¬ pred e.2 (computeStartSlotAtEpoch config ep) = true))).2.map
        SyncEvent.started, ?_, ?_, ?_⟩
    · rw [update_snd_eq, List.append_assoc]
    · intro ev hev
      rcases List.mem_map.mp hev with ⟨a, _, hae⟩
      exact ⟨a, hae.symm⟩
    · intro ev hev id hne
      rcases List.mem_append.mp hev with h2 | h3
      · rcases List.mem_map.mp h2 with ⟨a, _, hae⟩
        rw [hne] at hae
        exact SyncEvent.noConfusion hae
      · rcases List.mem_map.mp h3 with ⟨a, _, hae⟩
        rw [hne] at hae
        exact SyncEvent.noConfusion hae
  · intro id hrem
    rcases (removed_mem_update_trace config pred state ep id).mp hrem with ⟨c, hc, hp⟩
    constructor
    · intro hstop
      rcases survivor_of_selected id
        (Or.inl ((stopped_mem_update_trace config pred state ep id).mp hstop)) with ⟨c', hc', hp'⟩
      rw [keys_nodup_value_eq state.chains hnd id c c' hc hc'] at hp
      rw [hp] at hp'
      exact Bool.noConfusion hp'
    · intro hstart
      rcases survivor_of_selected id
        (Or.inr ((started_mem_update_trace config pred state ep id).mp hstart)) with ⟨c', hc', hp'⟩
      rw [keys_nodup_value_eq state.chains hnd id c c' hc hc'] at hp
      rw [hp] at hp'
      exact Bool.noConfusion hp'
  · intro id hsel
    apply survivor_of_selected id
    rcases hsel with h | h
    · exact Or.inl ((stopped_mem_update_trace config pred state ep id).mp h)
    · exact Or.inr ((started_mem_update_trace config pred state ep id).mp h)

/-- Witness for C6 at a concrete one-chain state. -/
theorem update_evicts_first_then_selects_survivors_witness :
    ((RangeSync.mk [(sampleId, sampleChain)]).chains.map Prod.fst).Nodup ∧
    (∃ pre post,
      (RangeSync.update sampleConfig (fun _ _ => false)
          (RangeSync.mk [(sampleId, sampleChain)]) 0).2 = pre ++ post ∧
      (∀ ev ∈ pre, ∃ id, ev = SyncEvent.removed id) ∧
      (∀ ev ∈ post, ∀ id, ev ≠ SyncEvent.removed id)) :=
  ⟨by simp,
    (update_evicts_first_then_selects_survivors sampleConfig (fun _ _ => false)
      (RangeSync.mk [(sampleId, sampleChain)]) 0 (by simp)).2.1⟩

/-- Witness for C3 at a concrete state with one syncing Finalized chain. -/
theorem syncState_finalized_precedence_witness :
    ∃ e ∈ (RangeSync.mk
        [(sampleId, SyncChain.mk 0 sampleTarget RangeSyncType.Finalized [] true)]).chains,
      e.2.isSyncing = true ∧ e.2.syncType = RangeSyncType.Finalized ∧
      RangeSync.syncState (RangeSync.mk
          [(sampleId, SyncChain.mk 0 sampleTarget RangeSyncType.Finalized [] true)])
        = RangeSyncState.Finalized e.2.target :=
  (syncState_finalized_precedence (RangeSync.mk
      [(sampleId, SyncChain.mk 0 sampleTarget RangeSyncType.Finalized [] true)])).2.1
    ⟨(sampleId, SyncChain.mk 0 sampleTarget RangeSyncType.Finalized [] true), by simp, rfl, rfl⟩
